import Mathlib

/-!
Verification development for the `lit-prompt-config` repository: a shallow
embedding of its configuration-to-payload translation core (template
resolution, provider payload builders, catalog and formatting helpers),
together with theorems checking the specification's claims against it.

Strings are modelled by Lean `String` (a wrapper around `List Char`);
JavaScript `undefined`/`null` is modelled by `Option`; JavaScript numbers by
`ℚ` (with a dedicated `JSNum` type where `NaN`/`Infinity` propagation
matters); records of strings by association lists with first-match lookup.
-/

/-- Variable maps (`Record<string, string>`); later spreads win, which is
modelled by putting the winning entries first (`List.lookup` is first-match). -/
abbrev VarMap := List (String × String)

/-- JavaScript `\w`: ASCII letters, digits and underscore. -/
def wordChar (c : Char) : Bool := c.isAlphanum || c = '_'

/-- The replacement callback of `resolveTemplate`
(`(_, key) => vars[key] ?? "{{key}}"` in `src/utils.ts`):
the variable's value when bound, the original placeholder text otherwise. -/
def substFor (vars : VarMap) (w : List Char) : List Char :=
  match List.lookup (String.mk w) vars with
  | some v => v.data
  | none => '{' :: '{' :: (w ++ ['}', '}'])

/-- One left-to-right pass of `template.replace(/\{\{(\w+)\}\}/g, …)`:
at each position, if `{{` + one-or-more word characters + `}}` matches,
emit the replacement and continue after the match; otherwise emit one
character and continue at the next position.  The `fuel` argument makes the
recursion structural; `fuel = length of the input` always suffices because
every step consumes at least one character. -/
def resolveAux (vars : VarMap) : Nat → List Char → List Char
  | _, [] => []
  | 0, l => l
  | fuel + 1, '{' :: '{' :: rest =>
    match rest.dropWhile wordChar with
    | '}' :: '}' :: r2 =>
      if (rest.takeWhile wordChar).isEmpty then
        '{' :: resolveAux vars fuel ('{' :: rest)
      else
        substFor vars (rest.takeWhile wordChar) ++ resolveAux vars fuel r2
    | _ => '{' :: resolveAux vars fuel ('{' :: rest)
  | fuel + 1, c :: cs => c :: resolveAux vars fuel cs

/-- The regex-replace scan at its natural fuel. -/
def resolveCore (vars : VarMap) (l : List Char) : List Char :=
  resolveAux vars l.length l

/-- `resolveTemplate` from `src/utils.ts` (the identical private copies in
`src/helpers/openrouter.ts` and `src/helpers/anthropic.ts` share this body):
`if (!template) return ''` then the global regex replace. -/
def resolveTemplate (template : Option String) (vars : VarMap) : String :=
  match template with
  | none => ""
  | some t => if t = "" then "" else String.mk (resolveCore vars t.data)

/-- The scan underlying `template?.match(/\{\{(\w+)\}\}/g)`: the list of
captured identifiers of all (non-overlapping, left-to-right) matches. -/
def extractAux : Nat → List Char → List String
  | _, [] => []
  | 0, _ => []
  | fuel + 1, '{' :: '{' :: rest =>
    match rest.dropWhile wordChar with
    | '}' :: '}' :: r2 =>
      if (rest.takeWhile wordChar).isEmpty then
        extractAux fuel ('{' :: rest)
      else
        String.mk (rest.takeWhile wordChar) :: extractAux fuel r2
    | _ => extractAux fuel ('{' :: rest)
  | fuel + 1, _ :: cs => extractAux fuel cs

/-- All captured identifiers, with duplicates, in match order. -/
def extractCore (l : List Char) : List String :=
  extractAux l.length l

/-- `[...new Set(list)]`: keep the first occurrence of each element,
drop later duplicates, preserve order. -/
def dedupAux (seen : List String) : List String → List String
  | [] => []
  | x :: xs => if seen.contains x then dedupAux seen xs else x :: dedupAux (x :: seen) xs

/-- `extractTemplateVars` from `src/utils.ts` (and the identical private
`extractVariables` in `src/helpers/langchain.ts`). -/
def extractTemplateVars (template : Option String) : List String :=
  match template with
  | none => []
  | some t => dedupAux [] (extractCore t.data)

/-- Specification-side statement of "distinct names in first-occurrence
order": fold left, appending each element not seen before.  (Independent
formulation, to be proved equal to the source-derived `dedupAux`.) -/
def firstOccurrences (l : List String) : List String :=
  l.foldl (fun acc x => if x ∈ acc then acc else acc ++ [x]) []

/-- JavaScript `String.prototype.split` with a one-character separator:
`splitChar sep l` is the list of separator-free segments; it is never empty
(splitting the empty string gives `[[]]`, one empty segment). -/
def splitChar (sep : Char) : List Char → List (List Char)
  | [] => [[]]
  | c :: cs =>
    if c = sep then [] :: splitChar sep cs
    else
      match splitChar sep cs with
      | [] => [[c]]
      | h :: t => (c :: h) :: t

/-- The message objects pushed into the payloads' `messages` arrays. -/
structure Message where
  role : String
  content : String
deriving DecidableEq, Repr

/-- `ResponseFormat` from `src/types.ts`. -/
inductive ResponseFormat
  | text
  | json_object
  | json_schema
deriving DecidableEq, Repr

/-- `ToolChoice` from `src/types.ts`. -/
inductive ToolChoice
  | auto
  | choiceNone
  | required
deriving DecidableEq, Repr

/-- `ReasoningEffort` from `src/types.ts`. -/
inductive ReasoningEffort
  | low
  | medium
  | high
deriving DecidableEq, Repr

/-- `JsonSchema` from `src/types.ts`; the inner `schema` object is an
uninterpreted JSON blob (the core never inspects it). -/
structure JsonSchema where
  name : String
  strict : Option Bool
  schema : String
deriving DecidableEq, Repr

/-- The `function` part of a `ToolDefinition`; `parameters` is an
uninterpreted JSON blob, `none` modelling a missing/undefined object. -/
structure FunctionDef where
  name : String
  description : Option String
  parameters : Option String
deriving DecidableEq, Repr

/-- `ToolDefinition` from `src/types.ts` (`type` is `"function"` in
well-typed data, but the Anthropic builder re-checks it at runtime). -/
structure ToolDefinition where
  type : String
  function : FunctionDef
deriving DecidableEq, Repr

/-- `PromptConfig` from `src/types.ts`.  Nullable/undefined runtime values
(which the builders defend against with `!= null` and truthiness checks)
are modelled with `Option`. -/
structure PromptConfig where
  id : String
  name : String
  model : String
  systemPrompt : String
  userPromptTemplate : String
  temperature : Option ℚ
  maxTokens : Option Nat
  topP : Option ℚ
  topK : Option Nat
  frequencyPenalty : Option ℚ
  presencePenalty : Option ℚ
  repetitionPenalty : Option ℚ
  minP : Option ℚ
  stopSequences : List String
  responseFormat : ResponseFormat
  jsonSchema : Option JsonSchema
  tools : List ToolDefinition
  toolChoice : ToolChoice
  reasoning : Bool
  reasoningEffort : Option ReasoningEffort
  sampleInputs : VarMap
  metadata : List (String × String)
deriving DecidableEq, Repr

/-- The `response_format` wire object (`{type, json_schema?}`). -/
structure ResponseFormatWire where
  type : String
  json_schema : Option JsonSchema
deriving DecidableEq, Repr

/-- The `reasoning` wire object (`{effort}`). -/
structure ReasoningWire where
  effort : ReasoningEffort
deriving DecidableEq, Repr

/-- `OpenRouterPayload` from `src/types.ts`; `Option` (`none` = field
absent) models the optional wire fields. -/
structure OpenRouterPayload where
  model : String
  messages : List Message
  temperature : Option ℚ
  max_tokens : Option Nat
  top_p : Option ℚ
  top_k : Option Nat
  frequency_penalty : Option ℚ
  presence_penalty : Option ℚ
  repetition_penalty : Option ℚ
  min_p : Option ℚ
  stop : Option (List String)
  response_format : Option ResponseFormatWire
  tools : Option (List ToolDefinition)
  tool_choice : Option ToolChoice
  reasoning : Option ReasoningWire
deriving DecidableEq, Repr

/-- `toOpenRouterPayload` from `src/helpers/openrouter.ts`: merge variables
(call-time keys win), resolve the user template, build `messages`
(system turn only if `systemPrompt` non-empty, user turn only if the
resolved text is non-empty), then apply the per-field elision guards. -/
def toOpenRouterPayload (config : PromptConfig) (vars : VarMap) : OpenRouterPayload :=
  let mergedVars : VarMap := vars ++ config.sampleInputs
  let resolvedUserPrompt := resolveTemplate (some config.userPromptTemplate) mergedVars
  let messages : List Message :=
    (if config.systemPrompt = "" then [] else [⟨"system", config.systemPrompt⟩]) ++
      (if resolvedUserPrompt = "" then [] else [⟨"user", resolvedUserPrompt⟩])
  { model := config.model
    messages := messages
    temperature := config.temperature
    max_tokens :=
      match config.maxTokens with
      | some n => if n = 0 then none else some n
      | none => none
    top_p :=
      match config.topP with
      | some p => if p = 1 then none else some p
      | none => none
    top_k :=
      match config.topK with
      | some k => if k = 0 then none else some k
      | none => none
    frequency_penalty :=
      match config.frequencyPenalty with
      | some q => if q = 0 then none else some q
      | none => none
    presence_penalty :=
      match config.presencePenalty with
      | some q => if q = 0 then none else some q
      | none => none
    repetition_penalty :=
      match config.repetitionPenalty with
      | some q => if q = 0 ∨ q = 1 then none else some q
      | none => none
    min_p :=
      match config.minP with
      | some q => if q = 0 then none else some q
      | none => none
    stop := if config.stopSequences = [] then none else some config.stopSequences
    response_format :=
      match config.responseFormat with
      | ResponseFormat.json_object => some ⟨"json_object", none⟩
      | ResponseFormat.json_schema =>
        match config.jsonSchema with
        | some js => some ⟨"json_schema", some js⟩
        | none => none
      | ResponseFormat.text => none
    tools := if config.tools = [] then none else some config.tools
    tool_choice :=
      if config.tools = [] then none
      else if config.toolChoice = ToolChoice.auto then none
      else some config.toolChoice
    reasoning :=
      if config.reasoning then some ⟨config.reasoningEffort.getD ReasoningEffort.medium⟩
      else none }

/-- `AnthropicTool` from `src/helpers/anthropic.ts`. -/
structure AnthropicTool where
  name : String
  description : String
  input_schema : String
deriving DecidableEq, Repr

/-- The Anthropic `tool_choice` wire object (`{type: "any" | "none"}` as
produced by the builder). -/
structure AnthropicToolChoiceWire where
  type : String
deriving DecidableEq, Repr

/-- `AnthropicPayload` from `src/helpers/anthropic.ts`. -/
structure AnthropicPayload where
  model : String
  messages : List Message
  max_tokens : Nat
  system : Option String
  temperature : Option ℚ
  top_p : Option ℚ
  top_k : Option Nat
  stop_sequences : Option (List String)
  tools : Option (List AnthropicTool)
  tool_choice : Option AnthropicToolChoiceWire
deriving DecidableEq, Repr

/-- `convertTools` from `src/helpers/anthropic.ts`: keep function-type
entries, remap to `{name, description || "", input_schema: parameters || {}}`. -/
def convertTools (tools : List ToolDefinition) : List AnthropicTool :=
  (tools.filter (fun t => t.type = "function")).map
    (fun t => ⟨t.function.name, t.function.description.getD "", t.function.parameters.getD "{}"⟩)

/-- `toAnthropicPayload` from `src/helpers/anthropic.ts`: same merge and
template resolution as the OpenRouter builder, user turn only in
`messages`, provider prefix stripped from the model id
(`model.split('/').pop() || model` when the id contains `/`),
`max_tokens` always present (`maxTokens || 4096`), system prompt as the
top-level `system` field. -/
def toAnthropicPayload (config : PromptConfig) (vars : VarMap) : AnthropicPayload :=
  let mergedVars : VarMap := vars ++ config.sampleInputs
  let resolvedUserPrompt := resolveTemplate (some config.userPromptTemplate) mergedVars
  let messages : List Message :=
    if resolvedUserPrompt = "" then [] else [⟨"user", resolvedUserPrompt⟩]
  let model : String :=
    if '/' ∈ config.model.data then
      let last := (splitChar '/' config.model.data).getLastD []
      if last = [] then config.model else String.mk last
    else config.model
  { model := model
    messages := messages
    max_tokens :=
      match config.maxTokens with
      | some n => if n = 0 then 4096 else n
      | none => 4096
    system := if config.systemPrompt = "" then none else some config.systemPrompt
    temperature := config.temperature
    top_p :=
      match config.topP with
      | some p => if p = 1 then none else some p
      | none => none
    top_k :=
      match config.topK with
      | some k => if k = 0 then none else some k
      | none => none
    stop_sequences := if config.stopSequences = [] then none else some config.stopSequences
    tools := if config.tools = [] then none else some (convertTools config.tools)
    tool_choice :=
      if config.tools = [] then none
      else
        match config.toolChoice with
        | ToolChoice.required => some ⟨"any"⟩
        | ToolChoice.choiceNone => some ⟨"none"⟩
        | ToolChoice.auto => none }

/-- `getProvider` from `src/helpers/langchain.ts`:
`modelId.split('/')[0] || 'unknown'`. -/
def getProvider (modelId : String) : String :=
  let first := String.mk ((splitChar '/' modelId.data).headD [])
  if first = "" then "unknown" else first

/-- A minimal concrete configuration for instantiating theorems, modelled
on the `baseConfig` of the repository's test suites (with the nullable
numeric fields unset). -/
def baseConfig : PromptConfig where
  id := "test"
  name := "Test"
  model := "openai/gpt-4o"
  systemPrompt := ""
  userPromptTemplate := ""
  temperature := none
  maxTokens := none
  topP := none
  topK := none
  frequencyPenalty := none
  presencePenalty := none
  repetitionPenalty := none
  minP := none
  stopSequences := []
  responseFormat := ResponseFormat.text
  jsonSchema := none
  tools := []
  toolChoice := ToolChoice.auto
  reasoning := false
  reasoningEffort := none
  sampleInputs := []
  metadata := []

/-- `OpenRouterModel` from `src/types.ts`, restricted to the fields the
embedded helpers read (`supported_parameters` may be absent). -/
structure OpenRouterModel where
  id : String
  name : String
  context_length : Option Nat
  supported_parameters : Option (List String)
deriving DecidableEq, Repr

/-- The `_supportedParams` getter of `src/prompt-config.ts`:
`this._selectedModel?.supported_parameters || []` (an undefined selected
model or an undefined capability list both collapse to `[]`). -/
def supportedParamsOf (selectedModel : Option OpenRouterModel) : List String :=
  match selectedModel with
  | some m => m.supported_parameters.getD []
  | none => []

/-- The local `has` check in `_renderParameters`
(`(p) => !sp.length || sp.includes(p)`). -/
def hasParam (sp : List String) (p : String) : Bool :=
  sp.isEmpty || sp.contains p

/-- The supports-parameter check a UI control uses: `hasParam` applied to
the selected model's capability list. -/
def supportsParameter (selectedModel : Option OpenRouterModel) (p : String) : Bool :=
  hasParam (supportedParamsOf selectedModel) p

/-- JavaScript numbers as the price helpers see them: a rational value,
or one of the non-finite values `NaN` / `±Infinity`. -/
inductive JSNum
  | nan
  | inf (neg : Bool)
  | val (q : ℚ)
deriving DecidableEq, Repr

/-- ASCII whitespace skipped by `parseFloat`. -/
def jsWhitespace (c : Char) : Bool :=
  c = ' ' || c = '\t' || c = '\n' || c = '\r'

/-- Decimal digits to the number they denote. -/
def digitsToNat (l : List Char) : Nat :=
  l.foldl (fun n c => 10 * n + (c.toNat - 48)) 0

/-- The unsigned decimal part of the `parseFloat` grammar: digits, an
optional fraction, requiring at least one digit overall; returns the value
and the unconsumed remainder, or `none` when no digits are found. -/
def parseUnsigned (l : List Char) : Option (ℚ × List Char) :=
  let intPart := l.takeWhile Char.isDigit
  let rest1 := l.dropWhile Char.isDigit
  match rest1 with
  | '.' :: rest2 =>
    let fracPart := rest2.takeWhile Char.isDigit
    let rest3 := rest2.dropWhile Char.isDigit
    if intPart.isEmpty ∧ fracPart.isEmpty then none
    else
      some ((digitsToNat intPart : ℚ) + (digitsToNat fracPart : ℚ) / (10 : ℚ) ^ fracPart.length,
        rest3)
  | _ =>
    if intPart.isEmpty then none else some ((digitsToNat intPart : ℚ), rest1)

/-- The optional exponent of the `parseFloat` grammar; an `e` with no
following digits is ignored (exponent 0). -/
def parseExp (l : List Char) : ℤ :=
  match l with
  | 'e' :: rest =>
    match rest with
    | '+' :: r => if (r.takeWhile Char.isDigit).isEmpty then 0 else (digitsToNat (r.takeWhile Char.isDigit) : ℤ)
    | '-' :: r => if (r.takeWhile Char.isDigit).isEmpty then 0 else -(digitsToNat (r.takeWhile Char.isDigit) : ℤ)
    | r => if (r.takeWhile Char.isDigit).isEmpty then 0 else (digitsToNat (r.takeWhile Char.isDigit) : ℤ)
  | 'E' :: rest =>
    match rest with
    | '+' :: r => if (r.takeWhile Char.isDigit).isEmpty then 0 else (digitsToNat (r.takeWhile Char.isDigit) : ℤ)
    | '-' :: r => if (r.takeWhile Char.isDigit).isEmpty then 0 else -(digitsToNat (r.takeWhile Char.isDigit) : ℤ)
    | r => if (r.takeWhile Char.isDigit).isEmpty then 0 else (digitsToNat (r.takeWhile Char.isDigit) : ℤ)
  | _ => 0

/-- JavaScript `parseFloat`: skip whitespace, optional sign, `Infinity` or
a decimal literal with optional exponent, trailing garbage ignored; `NaN`
when no numeric prefix exists.  Values are exact rationals (the embedding
idealises IEEE doubles). -/
def parseFloat (s : String) : JSNum :=
  let l := s.data.dropWhile jsWhitespace
  let signAndRest : Bool × List Char :=
    match l with
    | '-' :: r => (true, r)
    | '+' :: r => (false, r)
    | r => (false, r)
  let neg := signAndRest.1
  let l2 := signAndRest.2
  if l2.take 8 = "Infinity".data then JSNum.inf neg
  else
    match parseUnsigned l2 with
    | none => JSNum.nan
    | some (m, rest) =>
      let q := m * (10 : ℚ) ^ parseExp rest
      JSNum.val (if neg then -q else q)

/-- Multiplication by a positive constant with `NaN`/`Infinity`
propagation (`parseFloat(priceStr) * 1_000_000`). -/
def jsMul (x : JSNum) (k : ℚ) : JSNum :=
  match x with
  | JSNum.nan => JSNum.nan
  | JSNum.inf n => JSNum.inf n
  | JSNum.val q => JSNum.val (q * k)

/-- JavaScript `<` against a finite constant: false for `NaN`, true only
for `-Infinity` among the infinities. -/
def jsLt (x : JSNum) (c : ℚ) : Bool :=
  match x with
  | JSNum.nan => false
  | JSNum.inf n => n
  | JSNum.val q => decide (q < c)

/-- Two-decimal formatting of a non-negative rational (rounding half away
from zero), used by `toFixed(2)` on the finite path. -/
def fixed2OfRat (q : ℚ) : String :=
  let n : ℕ := (q * 100 + 1 / 2).floor.toNat
  let frac := n % 100
  toString (n / 100) ++ "." ++ (if frac < 10 then "0" else "") ++ toString frac

/-- JavaScript `Number.prototype.toFixed(2)`: `"NaN"` for `NaN`,
`"Infinity"`/`"-Infinity"` for the infinities, a two-decimal string
otherwise. -/
def jsToFixed2 (x : JSNum) : String :=
  match x with
  | JSNum.nan => "NaN"
  | JSNum.inf neg => if neg then "-Infinity" else "Infinity"
  | JSNum.val q => if q < 0 then "-" ++ fixed2OfRat (-q) else fixed2OfRat q

/-- `formatPrice` from `src/utils.ts`: falsy or `"0"` input is `"free"`,
otherwise the parsed per-token price is scaled to per-million and
formatted (`"<$0.01/M"` below one cent). -/
def formatPrice (priceStr : Option String) : String :=
  match priceStr with
  | none => "free"
  | some s =>
    if s = "" ∨ s = "0" then "free"
    else
      let p := jsMul (parseFloat s) 1000000
      if jsLt p (1 / 100) then "<$0.01/M"
      else "$" ++ jsToFixed2 p ++ "/M"

/-- `priceToCostPerMillion` from `src/utils.ts`: `null` for falsy input,
`"0"`, an unparsable string (`NaN`) or a parsed value of zero; otherwise
the per-token price scaled to per-million. -/
def priceToCostPerMillion (priceStr : Option String) : Option JSNum :=
  match priceStr with
  | none => none
  | some s =>
    if s = "" ∨ s = "0" then none
    else
      let perToken := parseFloat s
      if perToken = JSNum.nan ∨ perToken = JSNum.val 0 then none
      else some (jsMul perToken 1000000)

example : formatPrice (some "abc") = "$NaN/M" := by decide
example : formatPrice (some "0") = "free" := by decide
example : formatPrice none = "free" := by decide
example : priceToCostPerMillion (some "abc") = none := by decide
example : priceToCostPerMillion (some "0") = none := by decide
example : parseFloat "-Infinity" = JSNum.inf true := by decide
example : parseFloat "." = JSNum.nan := by decide
example : parseFloat "e5" = JSNum.nan := by decide

example : getProvider "anthropic/claude-sonnet-4-5" = "anthropic" := by decide
example : getProvider "gpt-4o" = "gpt-4o" := by decide
example : getProvider "" = "unknown" := by decide
example : getProvider "meta-llama/llama-3/70b" = "meta-llama" := by decide
example : getProvider "/abc" = "unknown" := by decide

example : resolveTemplate (some "Hello {{name}}!") [("name", "World")] = "Hello World!" := by decide
example : resolveTemplate (some "Hello {{name}}!") [] = "Hello {{name}}!" := by decide
example : resolveTemplate none [("a", "b")] = "" := by decide
example : resolveTemplate (some "{{{a}}}") [("a", "X")] = "{X}" := by decide
example : resolveTemplate (some "{{a}}") [("a", "{{b}}"), ("b", "x")] = "{{b}}" := by decide
example : resolveTemplate (some "{{}} {{a b}}") [("a", "X")] = "{{}} {{a b}}" := by decide
example : extractTemplateVars (some "{{a}} {{b}} {{a}}") = ["a", "b"] := by decide
example : extractTemplateVars (some "") = [] := by decide
example : extractTemplateVars none = [] := by decide

/-! ### Scanner lemmas -/

/-- `takeWhile` passes over a block of characters it accepts. -/
theorem takeWhile_append_of_all {p : Char → Bool} :
    ∀ {n l : List Char}, (∀ c ∈ n, p c = true) →
      (n ++ l).takeWhile p = n ++ l.takeWhile p
  | [], _, _ => rfl
  | a :: n, l, h => by
    have ha : p a = true := h a (by simp)
    simp only [List.cons_append, List.takeWhile_cons_of_pos ha]
    rw [takeWhile_append_of_all (fun c hc => h c (by simp [hc]))]

/-- `dropWhile` drops a block of characters it accepts. -/
theorem dropWhile_append_of_all {p : Char → Bool} :
    ∀ {n l : List Char}, (∀ c ∈ n, p c = true) →
      (n ++ l).dropWhile p = l.dropWhile p
  | [], _, _ => rfl
  | a :: n, l, h => by
    have ha : p a = true := h a (by simp)
    simp only [List.cons_append, List.dropWhile_cons_of_pos ha]
    exact dropWhile_append_of_all (fun c hc => h c (by simp [hc]))

/-- Step equation: a `{{` position where word characters are followed by
`}}`. -/
theorem resolveAux_step_hit (vars : VarMap) (fuel : Nat) (rest r2 : List Char)
    (hd : rest.dropWhile wordChar = '}' :: '}' :: r2) :
    resolveAux vars (fuel + 1) ('{' :: '{' :: rest) =
      if (rest.takeWhile wordChar).isEmpty then '{' :: resolveAux vars fuel ('{' :: rest)
      else substFor vars (rest.takeWhile wordChar) ++ resolveAux vars fuel r2 := by
  rw [resolveAux.eq_3, hd]
  rfl

/-- Step equation: a `{{` position with no `}}` after the word characters. -/
theorem resolveAux_step_miss (vars : VarMap) (fuel : Nat) (rest : List Char)
    (hd : ∀ r2, rest.dropWhile wordChar ≠ '}' :: '}' :: r2) :
    resolveAux vars (fuel + 1) ('{' :: '{' :: rest) = '{' :: resolveAux vars fuel ('{' :: rest) := by
  rw [resolveAux.eq_3]
  split
  · exact absurd ‹rest.dropWhile wordChar = _› (hd _)
  · rfl

/-- Step equation: a position that cannot start a match. -/
theorem resolveAux_step_other (vars : VarMap) (fuel : Nat) (c : Char) (cs : List Char)
    (h : ∀ rest, c = '{' → cs = '{' :: rest → False) :
    resolveAux vars (fuel + 1) (c :: cs) = c :: resolveAux vars fuel cs :=
  resolveAux.eq_4 vars fuel c cs h

/-- The result of `resolveAux` does not depend on the fuel, as long as the
fuel covers the input length. -/
theorem resolveAux_congr_fuel (vars : VarMap) :
    ∀ (f : Nat) (l : List Char), l.length ≤ f → ∀ g, l.length ≤ g →
      resolveAux vars f l = resolveAux vars g l := by
  intro f l
  induction f, l using resolveAux.induct vars with
  | case1 t =>
    intro _ g _
    rw [resolveAux.eq_1, resolveAux.eq_1]
  | case2 x hx =>
    intro h g hg
    exact absurd (List.eq_nil_of_length_eq_zero (Nat.le_zero.mp h)) hx
  | case3 fuel rest r2 hd he ih =>
    intro h g hg
    simp only [List.length_cons] at h hg
    match g, hg with
    | g' + 1, hg =>
      rw [resolveAux_step_hit vars fuel rest r2 hd, resolveAux_step_hit vars g' rest r2 hd,
        if_pos he, if_pos he,
        ih (by simp only [List.length_cons]; omega) g' (by simp only [List.length_cons]; omega)]
  | case4 fuel rest r2 hd he ih =>
    intro h g hg
    simp only [List.length_cons] at h hg
    have hr2 : r2.length + 2 ≤ rest.length := by
      have hle := (List.dropWhile_sublist (l := rest) wordChar).length_le
      rw [hd] at hle
      simpa using hle
    match g, hg with
    | g' + 1, hg =>
      rw [resolveAux_step_hit vars fuel rest r2 hd, resolveAux_step_hit vars g' rest r2 hd,
        if_neg he, if_neg he, ih (by omega) g' (by omega)]
  | case5 fuel rest hd ih =>
    intro h g hg
    simp only [List.length_cons] at h hg
    match g, hg with
    | g' + 1, hg =>
      rw [resolveAux_step_miss vars fuel rest (fun r2 hr => hd r2 hr),
        resolveAux_step_miss vars g' rest (fun r2 hr => hd r2 hr),
        ih (by simp only [List.length_cons]; omega) g' (by simp only [List.length_cons]; omega)]
  | case6 fuel c cs hne ih =>
    intro h g hg
    simp only [List.length_cons] at h hg
    match g, hg with
    | g' + 1, hg =>
      rw [resolveAux_step_other vars fuel c cs hne, resolveAux_step_other vars g' c cs hne,
        ih (by omega) g' (by omega)]

/-- Positions that cannot start a match pass one character through. -/
theorem resolveCore_cons (vars : VarMap) (c : Char) (cs : List Char)
    (h : ∀ rest, c = '{' → cs = '{' :: rest → False) :
    resolveCore vars (c :: cs) = c :: resolveCore vars cs := by
  simp only [resolveCore, List.length_cons]
  rw [resolveAux_step_other vars cs.length c cs h]

/-- The head-match equation of the scan: a full placeholder
`{{name}}` at the front is replaced (by the bound value, or kept verbatim
when unbound), and scanning continues after it — the replacement text is
never rescanned. -/
theorem resolveCore_match (vars : VarMap) (n rest : List Char)
    (hn : n ≠ []) (hw : ∀ c ∈ n, wordChar c = true) :
    resolveCore vars ('{' :: '{' :: (n ++ '}' :: '}' :: rest)) =
      substFor vars n ++ resolveCore vars rest := by
  have htw : (n ++ '}' :: '}' :: rest).takeWhile wordChar = n := by
    rw [takeWhile_append_of_all hw, List.takeWhile_cons_of_neg (by decide), List.append_nil]
  have hdw : (n ++ '}' :: '}' :: rest).dropWhile wordChar = '}' :: '}' :: rest := by
    rw [dropWhile_append_of_all hw, List.dropWhile_cons_of_neg (by decide)]
  simp only [resolveCore, List.length_cons]
  rw [resolveAux_step_hit vars ((n ++ '}' :: '}' :: rest).length + 1) (n ++ '}' :: '}' :: rest)
    rest hdw, htw, if_neg (by simp [hn])]
  congr 1
  exact resolveAux_congr_fuel vars _ rest
    (by simp only [List.length_append, List.length_cons]; omega) rest.length le_rfl

/-- Step equation for the extraction scan: matched placeholder. -/
theorem extractAux_step_hit (fuel : Nat) (rest r2 : List Char)
    (hd : rest.dropWhile wordChar = '}' :: '}' :: r2) :
    extractAux (fuel + 1) ('{' :: '{' :: rest) =
      if (rest.takeWhile wordChar).isEmpty then extractAux fuel ('{' :: rest)
      else String.mk (rest.takeWhile wordChar) :: extractAux fuel r2 := by
  rw [extractAux.eq_3, hd]
  rfl

/-- Step equation for the extraction scan: no `}}` after the word block. -/
theorem extractAux_step_miss (fuel : Nat) (rest : List Char)
    (hd : ∀ r2, rest.dropWhile wordChar ≠ '}' :: '}' :: r2) :
    extractAux (fuel + 1) ('{' :: '{' :: rest) = extractAux fuel ('{' :: rest) := by
  rw [extractAux.eq_3]
  split
  · exact absurd ‹rest.dropWhile wordChar = _› (hd _)
  · rfl

/-- Step equation for the extraction scan: a position that cannot start a
match. -/
theorem extractAux_step_other (fuel : Nat) (c : Char) (cs : List Char)
    (h : ∀ rest, c = '{' → cs = '{' :: rest → False) :
    extractAux (fuel + 1) (c :: cs) = extractAux fuel cs :=
  extractAux.eq_4 fuel c cs h

/-- The extraction scan is also fuel-independent above the input length. -/
theorem extractAux_congr_fuel :
    ∀ (f : Nat) (l : List Char), l.length ≤ f → ∀ g, l.length ≤ g →
      extractAux f l = extractAux g l := by
  intro f l
  induction f, l using extractAux.induct with
  | case1 t =>
    intro _ g _
    rw [extractAux.eq_1, extractAux.eq_1]
  | case2 x hx =>
    intro h g hg
    exact absurd (List.eq_nil_of_length_eq_zero (Nat.le_zero.mp h)) hx
  | case3 fuel rest r2 hd he ih =>
    intro h g hg
    simp only [List.length_cons] at h hg
    match g, hg with
    | g' + 1, hg =>
      rw [extractAux_step_hit fuel rest r2 hd, extractAux_step_hit g' rest r2 hd,
        if_pos he, if_pos he,
        ih (by simp only [List.length_cons]; omega) g' (by simp only [List.length_cons]; omega)]
  | case4 fuel rest r2 hd he ih =>
    intro h g hg
    simp only [List.length_cons] at h hg
    have hr2 : r2.length + 2 ≤ rest.length := by
      have hle := (List.dropWhile_sublist (l := rest) wordChar).length_le
      rw [hd] at hle
      simpa using hle
    match g, hg with
    | g' + 1, hg =>
      rw [extractAux_step_hit fuel rest r2 hd, extractAux_step_hit g' rest r2 hd,
        if_neg he, if_neg he, ih (by omega) g' (by omega)]
  | case5 fuel rest hd ih =>
    intro h g hg
    simp only [List.length_cons] at h hg
    match g, hg with
    | g' + 1, hg =>
      rw [extractAux_step_miss fuel rest (fun r2 hr => hd r2 hr),
        extractAux_step_miss g' rest (fun r2 hr => hd r2 hr),
        ih (by simp only [List.length_cons]; omega) g' (by simp only [List.length_cons]; omega)]
  | case6 fuel c cs hne ih =>
    intro h g hg
    simp only [List.length_cons] at h hg
    match g, hg with
    | g' + 1, hg =>
      rw [extractAux_step_other fuel c cs hne, extractAux_step_other g' c cs hne,
        ih (by omega) g' (by omega)]

/-- Head-match equation for extraction: the captured name is recorded and
the scan continues after the `}}`. -/
theorem extractCore_match (n rest : List Char)
    (hn : n ≠ []) (hw : ∀ c ∈ n, wordChar c = true) :
    extractCore ('{' :: '{' :: (n ++ '}' :: '}' :: rest)) =
      String.mk n :: extractCore rest := by
  have htw : (n ++ '}' :: '}' :: rest).takeWhile wordChar = n := by
    rw [takeWhile_append_of_all hw, List.takeWhile_cons_of_neg (by decide), List.append_nil]
  have hdw : (n ++ '}' :: '}' :: rest).dropWhile wordChar = '}' :: '}' :: rest := by
    rw [dropWhile_append_of_all hw, List.dropWhile_cons_of_neg (by decide)]
  simp only [extractCore, List.length_cons]
  rw [extractAux_step_hit ((n ++ '}' :: '}' :: rest).length + 1) (n ++ '}' :: '}' :: rest)
    rest hdw, htw, if_neg (by simp [hn])]
  congr 1
  exact extractAux_congr_fuel _ rest
    (by simp only [List.length_append, List.length_cons]; omega) rest.length le_rfl

/-- A string in which the extraction scan finds no placeholder is left
unchanged by the resolution scan. -/
theorem resolveAux_id_of_extract_nil (vars : VarMap) :
    ∀ (f : Nat) (l : List Char), extractAux f l = [] → resolveAux vars f l = l := by
  intro f l
  induction f, l using extractAux.induct with
  | case1 t => intro _; rw [resolveAux.eq_1]
  | case2 x hx => intro _; exact resolveAux.eq_2 vars x hx
  | case3 fuel rest r2 hd he ih =>
    intro h
    rw [extractAux_step_hit fuel rest r2 hd, if_pos he] at h
    rw [resolveAux_step_hit vars fuel rest r2 hd, if_pos he, ih h]
  | case4 fuel rest r2 hd he ih =>
    intro h
    rw [extractAux_step_hit fuel rest r2 hd, if_neg he] at h
    exact absurd h (List.cons_ne_nil _ _)
  | case5 fuel rest hd ih =>
    intro h
    rw [extractAux_step_miss fuel rest (fun r2 hr => hd r2 hr)] at h
    rw [resolveAux_step_miss vars fuel rest (fun r2 hr => hd r2 hr), ih h]
  | case6 fuel c cs hne ih =>
    intro h
    rw [extractAux_step_other fuel c cs hne] at h
    rw [resolveAux_step_other vars fuel c cs hne, ih h]

/-- `resolveCore` is the identity on placeholder-free strings. -/
theorem resolveCore_id_of_extract_nil (vars : VarMap) (l : List Char)
    (h : extractCore l = []) : resolveCore vars l = l :=
  resolveAux_id_of_extract_nil vars l.length l h

/-! ### Deduplication lemmas -/

/-- Membership in the deduplicated list. -/
theorem mem_dedupAux : ∀ (l seen : List String) (x : String),
    x ∈ dedupAux seen l ↔ x ∈ l ∧ x ∉ seen := by
  intro l
  induction l with
  | nil => intro seen x; simp [dedupAux]
  | cons y ys ih =>
    intro seen x
    simp only [dedupAux]
    by_cases hy : seen.contains y = true
    · have hy' : y ∈ seen := List.elem_iff.mp hy
      rw [if_pos hy, ih]
      simp only [List.mem_cons]
      constructor
      · rintro ⟨hx, hns⟩
        exact ⟨Or.inr hx, hns⟩
      · rintro ⟨hx | hx, hns⟩
        · exact absurd (hx ▸ hy') hns
        · exact ⟨hx, hns⟩
    · have hy' : y ∉ seen := fun hc => hy (List.elem_iff.mpr hc)
      rw [if_neg hy]
      simp only [List.mem_cons, ih]
      constructor
      · rintro (rfl | ⟨hx, hns⟩)
        · exact ⟨Or.inl rfl, hy'⟩
        · exact ⟨Or.inr hx, fun hc => hns (Or.inr hc)⟩
      · rintro ⟨hx | hx, hns⟩
        · exact Or.inl hx
        · by_cases hxy : x = y
          · exact Or.inl hxy
          · exact Or.inr ⟨hx, by simp [List.mem_cons, hxy, hns]⟩

/-- The deduplicated list has no duplicates. -/
theorem nodup_dedupAux : ∀ (l seen : List String), (dedupAux seen l).Nodup := by
  intro l
  induction l with
  | nil => intro seen; simp [dedupAux]
  | cons y ys ih =>
    intro seen
    simp only [dedupAux]
    by_cases hy : seen.contains y = true
    · rw [if_pos hy]
      exact ih seen
    · rw [if_neg hy]
      refine List.nodup_cons.mpr ⟨fun hc => ?_, ih (y :: seen)⟩
      exact ((mem_dedupAux ys (y :: seen) y).mp hc).2 (List.mem_cons_self y seen)

/-- `dedupAux` with empty memory returns the empty list only on the empty
list. -/
theorem dedupAux_nil_iff (l : List String) : dedupAux [] l = [] ↔ l = [] := by
  cases l with
  | nil => simp [dedupAux]
  | cons y ys =>
    simp only [dedupAux]
    rw [if_neg (by simp)]
    simp

/-- Folding up first occurrences is `dedupAux`, generalised over the
accumulator / memory pair. -/
theorem foldl_firstOcc_general : ∀ (l acc seen : List String),
    (∀ x, x ∈ seen ↔ x ∈ acc) →
    l.foldl (fun acc x => if x ∈ acc then acc else acc ++ [x]) acc = acc ++ dedupAux seen l := by
  intro l
  induction l with
  | nil => intro acc seen _; simp [dedupAux]
  | cons y ys ih =>
    intro acc seen h
    simp only [List.foldl_cons, dedupAux]
    by_cases hy : y ∈ acc
    · rw [if_pos hy, if_pos (List.elem_iff.mpr ((h y).mpr hy))]
      exact ih acc seen h
    · have hys : ¬ seen.contains y = true := fun hc => hy ((h y).mp (List.elem_iff.mp hc))
      rw [if_neg hy, if_neg hys,
        ih (acc ++ [y]) (y :: seen) (by intro x; simp [List.mem_cons, h x, or_comm])]
      simp

/-- The source-derived dedup equals the specification-side
first-occurrence fold. -/
theorem dedupAux_eq_firstOccurrences (l : List String) :
    dedupAux [] l = firstOccurrences l := by
  rw [firstOccurrences, foldl_firstOcc_general l [] [] (by simp)]
  simp

/-! ### Split lemmas -/

/-- Splitting never yields an empty list of segments. -/
theorem splitChar_ne_nil (sep : Char) : ∀ l : List Char, splitChar sep l ≠ [] := by
  intro l
  cases l with
  | nil => simp [splitChar]
  | cons c cs =>
    simp only [splitChar]
    by_cases h : c = sep
    · rw [if_pos h]; simp
    · rw [if_neg h]
      cases hs : splitChar sep cs <;> simp

/-- The default value of a non-empty `getLastD` is irrelevant. -/
theorem getLastD_irrel {α : Type} : ∀ (l : List α) (d d' : α), l ≠ [] →
    l.getLastD d = l.getLastD d'
  | [], _, _, h => absurd rfl h
  | [_], _, _, _ => rfl
  | x :: y :: t, d, d', _ => by
    rw [List.getLastD_cons d x (y :: t), List.getLastD_cons d' x (y :: t)]

/-- The first segment of a split is the prefix before the first separator. -/
theorem headD_splitChar (sep : Char) : ∀ l : List Char,
    (splitChar sep l).headD [] = l.takeWhile (fun c => !(c == sep)) := by
  intro l
  induction l with
  | nil => rfl
  | cons c cs ih =>
    simp only [splitChar]
    by_cases h : c = sep
    · subst h
      rw [if_pos rfl, List.takeWhile_cons_of_neg (by simp)]
      rfl
    · rw [if_neg h, List.takeWhile_cons_of_pos (p := fun c => !(c == sep)) (by simp [h])]
      cases hs : splitChar sep cs with
      | nil => exact absurd hs (splitChar_ne_nil sep cs)
      | cons hh tt =>
        rw [← ih, hs]
        rfl

/-- A separator-free list splits into a single segment. -/
theorem splitChar_sep_free (sep : Char) : ∀ l : List Char,
    (∀ c ∈ l, ¬ c = sep) → splitChar sep l = [l] := by
  intro l
  induction l with
  | nil => intro _; rfl
  | cons c cs ih =>
    intro h
    simp only [splitChar]
    rw [if_neg (h c (by simp)), ih (fun x hx => h x (by simp [hx]))]

/-- A list containing the separator splits into at least two segments. -/
theorem two_le_splitChar_length (sep : Char) : ∀ l : List Char,
    sep ∈ l → 2 ≤ (splitChar sep l).length := by
  intro l
  induction l with
  | nil => intro h; simp at h
  | cons c cs ih =>
    intro h
    simp only [splitChar]
    by_cases hc : c = sep
    · rw [if_pos hc]
      have := List.length_pos.mpr (splitChar_ne_nil sep cs)
      simp only [List.length_cons]
      omega
    · rw [if_neg hc]
      have hcs : sep ∈ cs := by
        rcases List.mem_cons.mp h with h1 | h1
        · exact absurd h1.symm hc
        · exact h1
      cases hs : splitChar sep cs with
      | nil => exact absurd hs (splitChar_ne_nil sep cs)
      | cons hh tt =>
        have h2 := ih hcs
        rw [hs] at h2
        simp only [List.length_cons] at h2 ⊢
        omega

/-- Unfolding equation of `splitChar` on a cons cell. -/
theorem splitChar_cons (sep c : Char) (cs : List Char) :
    splitChar sep (c :: cs) =
      if c = sep then [] :: splitChar sep cs
      else
        match splitChar sep cs with
        | [] => [[c]]
        | hh :: tt => (c :: hh) :: tt := rfl

/-- The last segment of a split is determined by the text after the last
separator. -/
theorem getLastD_splitChar_append (sep : Char) : ∀ (a b d : List Char),
    (splitChar sep (a ++ sep :: b)).getLastD d = (splitChar sep b).getLastD d := by
  intro a
  induction a with
  | nil =>
    intro b d
    rw [List.nil_append, splitChar_cons, if_pos rfl, List.getLastD_cons]
    exact getLastD_irrel _ _ _ (splitChar_ne_nil sep b)
  | cons c a' ih =>
    intro b d
    rw [List.cons_append, splitChar_cons]
    by_cases h : c = sep
    · rw [if_pos h, List.getLastD_cons,
        getLastD_irrel _ _ d (splitChar_ne_nil sep (a' ++ sep :: b))]
      exact ih b d
    · rw [if_neg h]
      cases hs : splitChar sep (a' ++ sep :: b) with
      | nil => exact absurd hs (splitChar_ne_nil _ _)
      | cons hh tt =>
        have h2 : 2 ≤ (splitChar sep (a' ++ sep :: b)).length :=
          two_le_splitChar_length _ _ (by simp)
        rw [hs] at h2
        simp only [List.length_cons] at h2
        cases tt with
        | nil => simp at h2
        | cons u us =>
          rw [List.getLastD_cons]
          have hlast := ih b d
          rw [hs, List.getLastD_cons] at hlast
          rw [getLastD_irrel (u :: us) (c :: hh) hh (by simp)]
          exact hlast

/-- Splitting a separator-free list and taking the last segment gives the
list back. -/
theorem getLastD_splitChar_sep_free (sep : Char) (l d : List Char)
    (h : ∀ c ∈ l, ¬ c = sep) : (splitChar sep l).getLastD d = l := by
  rw [splitChar_sep_free sep l h]
  rfl

/-- Two strings are equal iff their character lists are. -/
theorem string_ext_iff (s t : String) : s = t ↔ s.data = t.data := by
  constructor
  · intro h
    rw [h]
  · intro h
    cases s
    cases t
    exact congrArg String.mk h

/-! ### Claim theorems -/

/-- C1: for every configuration and variable map, the OpenAI-compatible
payload built by `toOpenRouterPayload` contains `top_p` exactly when `topP`
is set and not equal to 1, in which case `top_p` equals `topP`; whereas
`temperature` is included whenever it is set, even when it equals the
default 1. -/
theorem C1_openrouter_top_p_temperature (config : PromptConfig) (vars : VarMap) :
    (∀ p : ℚ, (toOpenRouterPayload config vars).top_p = some p ↔
      (config.topP = some p ∧ p ≠ 1)) ∧
    (toOpenRouterPayload config vars).temperature = config.temperature := by
  constructor
  · intro p
    cases h : config.topP with
    | none => simp [toOpenRouterPayload, h]
    | some q =>
      by_cases hq : q = 1
      · subst hq
        simp only [toOpenRouterPayload, h, if_pos rfl]
        constructor
        · intro hc
          exact absurd hc (by simp)
        · rintro ⟨hc, hp⟩
          exact absurd (Option.some.inj hc).symm hp
      · simp only [toOpenRouterPayload, h, if_neg hq]
        constructor
        · intro hc
          exact ⟨by rw [Option.some.inj hc], fun hp => hq ((Option.some.inj hc).trans hp)⟩
        · rintro ⟨hc, _⟩
          exact hc
  · simp [toOpenRouterPayload]

/-- C3: for every configuration and variable map, the Anthropic-style
payload's `messages` array never contains a system-role entry (every entry
has role `"user"`, and there is at most one entry); the system prompt is
emitted only as the top-level `system` field, and only when `systemPrompt`
is non-empty. -/
theorem C3_anthropic_no_system_in_messages (config : PromptConfig) (vars : VarMap) :
    (∀ m ∈ (toAnthropicPayload config vars).messages, m.role = "user") ∧
    (toAnthropicPayload config vars).messages.length ≤ 1 ∧
    (toAnthropicPayload config vars).system =
      (if config.systemPrompt = "" then none else some config.systemPrompt) := by
  refine ⟨?_, ?_, ?_⟩
  · intro m hm
    simp only [toAnthropicPayload] at hm
    split at hm
    · simp at hm
    · simp only [List.mem_singleton] at hm
      rw [hm]
  · simp only [toAnthropicPayload]
    split <;> simp
  · simp only [toAnthropicPayload]

/-- C9: the supports-parameter check is fail-open: it returns true whenever
the selected model's `supported_parameters` list is absent or empty, and
otherwise returns true exactly when the list contains the wire name. -/
theorem C9_supports_parameter_fail_open (m : Option OpenRouterModel) (p : String) :
    supportsParameter m p = true ↔
      (supportedParamsOf m = [] ∨ p ∈ supportedParamsOf m) := by
  simp [supportsParameter, hasParam, List.isEmpty_iff, List.elem_iff]

/-- A predicate that holds on every element passes `takeWhile` through the
whole list. -/
theorem takeWhile_all {p : Char → Bool} : ∀ {l : List Char},
    (∀ c ∈ l, p c = true) → l.takeWhile p = l
  | [], _ => rfl
  | a :: l, h => by
    rw [List.takeWhile_cons_of_pos (h a (by simp)),
      takeWhile_all (fun c hc => h c (by simp [hc]))]

/-- C3 witness: a concrete configuration with both prompts set — the
Anthropic payload has a single message, and it is the user turn. -/
theorem C3_anthropic_no_system_in_messages_witness :
    (toAnthropicPayload
      { baseConfig with systemPrompt := "You are helpful.", userPromptTemplate := "Hello!" }
      []).messages.length ≤ 1 ∧
    (⟨"user", "Hello!"⟩ : Message).role = "user" := by
  refine ⟨(C3_anthropic_no_system_in_messages _ []).2.1, ?_⟩
  exact (C3_anthropic_no_system_in_messages
    { baseConfig with systemPrompt := "You are helpful.", userPromptTemplate := "Hello!" } []).1
    ⟨"user", "Hello!"⟩ (by decide)

/-- C2 counterexample: for model id "anthropic/", the last `/`-delimited
segment is empty, and the payload's model field is the whole id
"anthropic/", not that last segment. -/
theorem C2_model_counterexample :
    (toAnthropicPayload { baseConfig with model := "anthropic/" } []).model = "anthropic/" ∧
    (splitChar '/' ("anthropic/".data)).getLastD [] = ([] : List Char) ∧
    (toAnthropicPayload { baseConfig with model := "anthropic/" } []).model ≠
      String.mk ((splitChar '/' ("anthropic/".data)).getLastD []) := by
  refine ⟨by decide, by decide, by decide⟩

/-- C2 (amended): the Anthropic payload always contains `max_tokens`, equal
to `maxTokens` when truthy and 4096 otherwise; its model field is the last
`/`-delimited segment when the model id contains `/` and that segment is
non-empty, and the unchanged model id otherwise (no `/` at all, or a
trailing `/` making the last segment empty). -/
theorem C2_anthropic_max_tokens_model (config : PromptConfig) (vars : VarMap) :
    (toAnthropicPayload config vars).max_tokens =
      (match config.maxTokens with
       | some n => if n = 0 then 4096 else n
       | none => 4096) ∧
    ('/' ∉ config.model.data → (toAnthropicPayload config vars).model = config.model) ∧
    (∀ a b : List Char, config.model.data = a ++ '/' :: b → '/' ∉ b →
      ((b ≠ [] → (toAnthropicPayload config vars).model = String.mk b) ∧
       (b = [] → (toAnthropicPayload config vars).model = config.model))) := by
  refine ⟨rfl, ?_, ?_⟩
  · intro h
    simp only [toAnthropicPayload]
    rw [if_neg h]
  · intro a b hab hnb
    have hmem : '/' ∈ config.model.data := by
      rw [hab]
      exact List.mem_append_right a (List.mem_cons_self _ _)
    have hlast : (splitChar '/' config.model.data).getLastD [] = b := by
      rw [hab, getLastD_splitChar_append,
        getLastD_splitChar_sep_free '/' b [] (fun c hc hce => hnb (hce ▸ hc))]
    constructor
    · intro hbne
      simp only [toAnthropicPayload]
      rw [if_pos hmem, hlast, if_neg hbne]
    · intro hbnil
      simp only [toAnthropicPayload]
      rw [if_pos hmem, hlast, if_pos hbnil]

/-- C2 witness: "anthropic/claude-x" is stripped to "claude-x", and a falsy
`maxTokens` of 0 falls back to 4096. -/
theorem C2_anthropic_max_tokens_model_witness :
    (toAnthropicPayload { baseConfig with model := "anthropic/claude-x", maxTokens := some 0 }
      []).model = "claude-x" ∧
    (toAnthropicPayload { baseConfig with model := "anthropic/claude-x", maxTokens := some 0 }
      []).max_tokens = 4096 := by
  have h := C2_anthropic_max_tokens_model
    { baseConfig with model := "anthropic/claude-x", maxTokens := some 0 } []
  exact ⟨(h.2.2 ("anthropic".data) ("claude-x".data) (by decide) (by decide)).1 (by decide), h.1⟩

/-- C8 counterexample: for the model id "/abc", the first `/`-delimited
segment is empty, but `getProvider` returns the sentinel "unknown". -/
theorem C8_counterexample :
    getProvider "/abc" = "unknown" ∧
    (splitChar '/' ("/abc".data)).headD [] = ([] : List Char) ∧
    getProvider "/abc" ≠ String.mk ((splitChar '/' ("/abc".data)).headD []) := by
  refine ⟨by decide, by decide, by decide⟩

/-- C8 (amended): `getProvider` returns the first `/`-delimited segment
when that segment is non-empty (in particular, the whole string when there
is no `/`, and the first segment under multiple slashes); when the first
segment is empty — the empty string, or an id beginning with `/` — it
returns the sentinel "unknown". -/
theorem C8_get_provider (s : String) :
    (s = "" → getProvider s = "unknown") ∧
    ('/' ∉ s.data → s ≠ "" → getProvider s = s) ∧
    (∀ a b : List Char, s.data = a ++ '/' :: b → '/' ∉ a →
      ((a ≠ [] → getProvider s = String.mk a) ∧
       (a = [] → getProvider s = "unknown"))) := by
  have hmkdata : String.mk s.data = s := by cases s; rfl
  refine ⟨?_, ?_, ?_⟩
  · intro h
    subst h
    decide
  · intro h hne
    have hfirst : (splitChar '/' s.data).headD [] = s.data := by
      rw [headD_splitChar]
      exact takeWhile_all (fun c hc => by
        have hcne : c ≠ '/' := fun hce => h (hce ▸ hc)
        simp [hcne])
    simp only [getProvider, hfirst, hmkdata]
    rw [if_neg hne]
  · intro a b hab hna
    have hfirst : (splitChar '/' s.data).headD [] = a := by
      rw [hab, headD_splitChar,
        takeWhile_append_of_all (fun c hc => by
          have hcne : c ≠ '/' := fun hce => hna (hce ▸ hc)
          simp [hcne]),
        List.takeWhile_cons_of_neg (by simp), List.append_nil]
    constructor
    · intro hane
      have hmkne : String.mk a ≠ "" := fun hc => hane ((string_ext_iff _ _).mp hc)
      simp only [getProvider, hfirst]
      rw [if_neg hmkne]
    · intro hanil
      subst hanil
      simp only [getProvider, hfirst]
      rw [if_pos (by decide)]

/-- C8 witness: a multi-slash id keeps only its first segment. -/
theorem C8_get_provider_witness : getProvider "meta-llama/llama-3/70b" = "meta-llama" :=
  ((C8_get_provider "meta-llama/llama-3/70b").2.2 ("meta-llama".data) ("llama-3/70b".data)
    (by decide) (by decide)).1 (by decide)

/-- C4: `resolve` replaces each matched placeholder `{{name}}` with the
bound value when the key is present, leaves the placeholder in its original
literal `{{name}}` form when the key is absent (never emptied — and, being
a total function, never throws), and resolves an absent template to the
empty string. -/
theorem C4_resolve_replace_or_keep (vars : VarMap) (n rest : List Char)
    (hn : n ≠ []) (hw : ∀ c ∈ n, wordChar c = true) :
    resolveTemplate none vars = "" ∧
    resolveCore vars ('{' :: '{' :: (n ++ '}' :: '}' :: rest)) =
      (match List.lookup (String.mk n) vars with
       | some v => v.data
       | none => '{' :: '{' :: (n ++ ['}', '}'])) ++ resolveCore vars rest := by
  refine ⟨rfl, ?_⟩
  rw [resolveCore_match vars n rest hn hw]
  rfl

/-- C4 witness: at the placeholder "name" bound to "World", the
placeholder is substituted; the absent template gives the empty string. -/
theorem C4_resolve_replace_or_keep_witness :
    resolveTemplate none [("name", "World")] = "" ∧
    resolveCore [("name", "World")] ('{' :: '{' :: ("name".data ++ '}' :: '}' :: "!".data)) =
      "World".data ++ resolveCore [("name", "World")] "!".data := by
  have h := C4_resolve_replace_or_keep [("name", "World")] ("name".data) ("!".data)
    (by decide) (by decide)
  exact ⟨h.1, h.2⟩

/-- C10: the scan is a single left-to-right pass — a bound placeholder is
replaced by its value verbatim, and scanning continues only after the
matched `}}`; in particular, placeholder-shaped text inside the substituted
value is not substituted by the same call. -/
theorem C10_single_pass (vars : VarMap) (n rest : List Char) (val : String)
    (hn : n ≠ []) (hw : ∀ c ∈ n, wordChar c = true)
    (hv : List.lookup (String.mk n) vars = some val) :
    resolveCore vars ('{' :: '{' :: (n ++ '}' :: '}' :: rest)) =
      val.data ++ resolveCore vars rest := by
  rw [resolveCore_match vars n rest hn hw]
  simp only [substFor, hv]

/-- C10 witness: with a bound to "{{b}}" and b bound to "x", resolving
"{{a}}" yields the literal text "{{b}}" — the value's placeholder shape is
not substituted by the same call even though b is bound. -/
theorem C10_single_pass_witness :
    resolveCore [("a", "{{b}}"), ("b", "x")] ('{' :: '{' :: ("a".data ++ '}' :: '}' :: [])) =
      "{{b}}".data := by
  have h := C10_single_pass [("a", "{{b}}"), ("b", "x")] ("a".data) [] "{{b}}"
    (by decide) (by decide) (by decide)
  simpa using h

/-- C5 counterexample: for t = "{{a}}" and v = {a ↦ "{{b}}", b ↦ "x"}, v
covers every placeholder occurring in t, yet resolving twice ("x") differs
from resolving once ("{{b}}"). -/
theorem C5_counterexample :
    (∀ x ∈ extractTemplateVars (some "{{a}}"),
      (List.lookup x [("a", "{{b}}"), ("b", "x")]).isSome = true) ∧
    resolveTemplate (some (resolveTemplate (some "{{a}}") [("a", "{{b}}"), ("b", "x")]))
        [("a", "{{b}}"), ("b", "x")] ≠
      resolveTemplate (some "{{a}}") [("a", "{{b}}"), ("b", "x")] := by
  refine ⟨by decide, by decide⟩

/-- C5 (amended): resolving twice equals resolving once whenever the
once-resolved string contains no placeholder at all (no leftover `{{name}}`
to re-trigger substitution).  Coverage of t's placeholders alone does not
suffice, because a substituted value may itself introduce a placeholder. -/
theorem C5_resolve_idempotent (t : String) (vars : VarMap)
    (h : extractTemplateVars (some (resolveTemplate (some t) vars)) = []) :
    resolveTemplate (some (resolveTemplate (some t) vars)) vars =
      resolveTemplate (some t) vars := by
  generalize hgen : resolveTemplate (some t) vars = s at h ⊢
  by_cases hse : s = ""
  · subst hse
    rfl
  · have hec : extractCore s.data = [] := by
      simp only [extractTemplateVars] at h
      exact (dedupAux_nil_iff _).mp h
    simp only [resolveTemplate, if_neg hse]
    rw [resolveCore_id_of_extract_nil vars s.data hec]

/-- C5 witness: "Hello {{name}}!" with name bound resolves to the
placeholder-free "Hello World!", and resolving again leaves it unchanged. -/
theorem C5_resolve_idempotent_witness :
    resolveTemplate (some (resolveTemplate (some "Hello {{name}}!") [("name", "World")]))
        [("name", "World")] =
      resolveTemplate (some "Hello {{name}}!") [("name", "World")] :=
  C5_resolve_idempotent "Hello {{name}}!" [("name", "World")] (by decide)

/-- C6: `extractTemplateVars` returns exactly the identifiers captured by
the `{{`+word+`}}` scan, in first-occurrence order with duplicates removed
(it equals an independent first-occurrence fold, has no duplicates, and has
the same members as the raw match list); an absent or empty template yields
the empty sequence, and the spec's example holds. -/
theorem C6_extract_variables (t : String) :
    extractTemplateVars (some t) = firstOccurrences (extractCore t.data) ∧
    (extractTemplateVars (some t)).Nodup ∧
    (∀ x, x ∈ extractTemplateVars (some t) ↔ x ∈ extractCore t.data) ∧
    extractTemplateVars none = [] ∧
    extractTemplateVars (some "") = [] ∧
    extractTemplateVars (some "{{a}} {{b}} {{a}}") = ["a", "b"] := by
  refine ⟨?_, ?_, ?_, rfl, by decide, by decide⟩
  · simp only [extractTemplateVars]
    exact dedupAux_eq_firstOccurrences _
  · simp only [extractTemplateVars]
    exact nodup_dedupAux _ _
  · intro x
    simp only [extractTemplateVars]
    rw [mem_dedupAux]
    simp

/-- C7 counterexample: for the unparsable price string "abc",
`formatPrice` returns "$NaN/M" — a caller-visible string containing "NaN" —
so NaN is not always kept out of caller-visible strings (though
`priceToCostPerMillion` does absorb it into an absent value). -/
theorem C7_counterexample :
    formatPrice (some "abc") = "$NaN/M" ∧
    "NaN".data <:+: (formatPrice (some "abc")).data ∧
    priceToCostPerMillion (some "abc") = none := by
  refine ⟨by decide, by decide, by decide⟩

/-- C7 (amended): `priceToCostPerMillion` yields an absent cost for an
absent input, for the falsy/zero strings "" and "0", for an unparsable
(NaN) string, and for a string parsing to the value zero; but `formatPrice`
does not shield callers from NaN — on a non-empty, non-"0", unparsable
price string it returns the caller-visible string "$NaN/M". -/
theorem C7_price_nan_handling (s z w : String)
    (hz : z = "" ∨ z = "0")
    (hs : parseFloat s = JSNum.nan) (hse : s ≠ "") (hs0 : s ≠ "0")
    (hw : parseFloat w = JSNum.val 0) :
    priceToCostPerMillion none = none ∧
    priceToCostPerMillion (some z) = none ∧
    priceToCostPerMillion (some s) = none ∧
    priceToCostPerMillion (some w) = none ∧
    formatPrice (some s) = "$NaN/M" := by
  refine ⟨rfl, ?_, ?_, ?_, ?_⟩
  · rcases hz with rfl | rfl
    · decide
    · decide
  · simp only [priceToCostPerMillion]
    rw [if_neg (by simp [hse, hs0]), if_pos (Or.inl hs)]
  · by_cases hwe : w = ""
    · simp [priceToCostPerMillion, hwe]
    · by_cases hw0 : w = "0"
      · simp [priceToCostPerMillion, hw0]
      · simp only [priceToCostPerMillion]
        rw [if_neg (by simp [hwe, hw0]), if_pos (Or.inr hw)]
  · simp only [formatPrice]
    rw [if_neg (by simp [hse, hs0]), hs]
    decide

/-- C7 witness: "abc" is unparsable and "0.0" parses to zero; both are
absorbed by `priceToCostPerMillion`, while `formatPrice` renders "abc" as
"$NaN/M". -/
theorem C7_price_nan_handling_witness :
    priceToCostPerMillion none = none ∧
    priceToCostPerMillion (some "0") = none ∧
    priceToCostPerMillion (some "abc") = none ∧
    priceToCostPerMillion (some "0.0") = none ∧
    formatPrice (some "abc") = "$NaN/M" :=
  C7_price_nan_handling "abc" "0" "0.0" (Or.inr rfl) (by decide) (by decide) (by decide)
    (by
      have hpf : parseFloat "0.0" =
          JSNum.val (((digitsToNat ['0'] : ℚ) + (digitsToNat ['0'] : ℚ) / (10 : ℚ) ^ (1 : ℕ)) *
            (10 : ℚ) ^ (0 : ℤ)) := rfl
      rw [hpf, show digitsToNat ['0'] = 0 from rfl]
      norm_num)

/-- C1 witness: with topP = 0.9 the payload carries top_p = 0.9, and a
temperature equal to the default 1 is still included. -/
theorem C1_openrouter_top_p_temperature_witness :
    (toOpenRouterPayload { baseConfig with topP := some (9 / 10), temperature := some 1 }
      []).top_p = some (9 / 10) ∧
    (toOpenRouterPayload { baseConfig with topP := some (9 / 10), temperature := some 1 }
      []).temperature = some 1 := by
  constructor
  · exact ((C1_openrouter_top_p_temperature _ []).1 (9 / 10)).mpr ⟨rfl, by norm_num⟩
  · exact (C1_openrouter_top_p_temperature _ []).2

/-- C6 witness: the spec's example, instantiated from the claim theorem. -/
theorem C6_extract_variables_witness :
    extractTemplateVars (some "{{a}} {{b}} {{a}}") = ["a", "b"] :=
  (C6_extract_variables "{{a}} {{b}} {{a}}").2.2.2.2.2

/-- C9 witness: a model listing capabilities answers by membership, and an
absent model (empty capability list) is fail-open. -/
theorem C9_supports_parameter_fail_open_witness :
    supportsParameter (some ⟨"openai/gpt-4o", "GPT-4o", none, some ["temperature", "top_p"]⟩)
      "top_p" = true ∧
    supportsParameter none "top_p" = true := by
  constructor
  · exact (C9_supports_parameter_fail_open _ _).mpr (Or.inr (by decide))
  · exact (C9_supports_parameter_fail_open _ _).mpr (Or.inl rfl)
